import Mathlib

/-!
Verification of the crawl-and-audit core of the AI SEO Audit backend
(`main.py`, `schemas.py`).

External collaborators (HTTP transport, the document store, the HTML
parser and `urllib`'s relative-reference resolution `urljoin`) are
modelled as oracle parameters, exactly as the design document treats
them.  Everything the claims are about — URL parsing into components,
`same_origin`, `normalize_url`, the crawl stepper inside
`crawl_status`, the SEO scorer `run_basic_seo_checks` and the audit
stepper inside `audit_list` — is translated from the source.
-/

set_option maxRecDepth 200000

namespace SeoAudit

/-! ## URL parsing (`urllib.parse.urlparse` / `geturl`)

`urlparse` is modelled after CPython's `urlsplit`: the scheme is split
off at the first `:` when the text before it is a letter followed by
scheme characters and is lowercased; a netloc is split off after a
leading `//` up to the first `/`, `?` or `#`; the fragment is
everything after the first `#` of the remainder; the query everything
after the first `?` of what is left.  The path-params component (`;`)
is split from the path by `urlparse` and re-joined verbatim by
`geturl`, so it is kept inside `path` here.  -/

structure UrlParts where
  scheme : String
  netloc : String
  path : String
  query : String
  fragment : String
deriving Repr, DecidableEq

/-- Split a character list at the first occurrence of `c`:
`some (before, after)` when `c` occurs, `none` otherwise. -/
def splitAtFirst (c : Char) : List Char → Option (List Char × List Char)
  | [] => none
  | x :: xs =>
    if x = c then some ([], xs)
    else (splitAtFirst c xs).map (fun p => (x :: p.1, p.2))

/-- Characters allowed in a URL scheme after the initial letter
(CPython's `scheme_chars`). -/
def isSchemeChar (c : Char) : Bool :=
  c.isAlpha || c.isDigit || c = '+' || c = '-' || c = '.'

/-- Python's `str.lower()` on the character list (the scheme is pure
ASCII by construction, where this agrees with `String.toLower`). -/
def lowerChars (l : List Char) : List Char :=
  l.map Char.toLower

/-- Split the scheme off a URL, as `urlsplit` does: the text before the
first `:` must be nonempty, start with a letter and consist of scheme
characters; it is lowercased.  Returns `(scheme, rest)`, with
`scheme = ""` when no scheme is recognised. -/
def splitScheme (l : List Char) : String × List Char :=
  match splitAtFirst ':' l with
  | some (c0 :: cs, after) =>
    if c0.isAlpha && cs.all isSchemeChar then
      (String.mk (lowerChars (c0 :: cs)), after)
    else ("", l)
  | _ => ("", l)

/-- A character that ends the netloc component (`_splitnetloc` stops at
the first `/`, `?` or `#`). -/
def isNetlocEnd (c : Char) : Bool :=
  c = '/' || c = '?' || c = '#'

/-- Split the netloc off the remainder of a URL when it starts with
`//`.  Returns `(netloc, rest)` with the delimiter kept in `rest`. -/
def splitNetloc : List Char → List Char × List Char
  | '/' :: '/' :: rest =>
    (rest.takeWhile (fun c => !isNetlocEnd c), rest.dropWhile (fun c => !isNetlocEnd c))
  | l => ([], l)

/-- `urllib.parse.urlparse`, restricted to the components the program
uses (scheme, netloc, path+params, query, fragment). -/
def urlparse (s : String) : UrlParts :=
  let (scheme, rest) := splitScheme s.data
  let (netloc, rest) := splitNetloc rest
  let (rest, fragment) :=
    match splitAtFirst '#' rest with
    | some (a, b) => (a, b)
    | none => (rest, ([] : List Char))
  let (path, query) :=
    match splitAtFirst '?' rest with
    | some (a, b) => (a, b)
    | none => (rest, ([] : List Char))
  { scheme := scheme, netloc := String.mk netloc, path := String.mk path,
    query := String.mk query, fragment := String.mk fragment }

/-- `ParseResult.geturl`, i.e. `urlunparse` with the params already
re-joined into the path: reassemble the URL, omitting empty
components. -/
def geturl (p : UrlParts) : String :=
  let url := p.path
  let url :=
    if p.netloc ≠ "" ∨ (url ≠ "" ∧ url.data.take 2 = ['/', '/']) then
      (if url ≠ "" ∧ url.data.take 1 ≠ ['/'] then "//" ++ p.netloc ++ "/" ++ url
       else "//" ++ p.netloc ++ url)
    else url
  let url := if p.scheme ≠ "" then p.scheme ++ ":" ++ url else url
  let url := if p.query ≠ "" then url ++ "?" ++ p.query else url
  if p.fragment ≠ "" then url ++ "#" ++ p.fragment else url

/-! ## `normalize_url` and `same_origin` (main.py lines 34-48) -/

/-- `normalize_url(base, link)`: resolve `link` against `base` with
`urljoin` (an external capability, passed as the oracle `join`), keep
the result only when its scheme is http or https, and strip the
fragment.  The Python `except` branch returns `None`; in this total
model resolution cannot raise, so `none` arises exactly from the
scheme check. -/
def normalize_url (join : String → String → String) (base link : String) :
    Option String :=
  let p := urlparse (join base link)
  if p.scheme = "http" ∨ p.scheme = "https" then
    some (geturl { p with fragment := "" })
  else none

/-- `same_origin(a, b)`: compare the parsed network locations only
(`pa.netloc == pb.netloc`). -/
def same_origin (a b : String) : Bool :=
  (urlparse a).netloc == (urlparse b).netloc

/-! ## The crawl stepper (main.py lines 82-122, inside `crawl_status`)

`requests.get` + BeautifulSoup link extraction is the oracle `web`:
for a URL it either fails (timeout, connection error, parse error —
the `except` branch) or yields an HTTP status code and the `href`
attributes of the page's anchors.  `urljoin` is the oracle `join`.
Python's `list(set(...))` round-trip is the oracle `setList`: it
yields the distinct elements in an unspecified order (`Env.WF`). -/

inductive FetchResult where
  | fail : FetchResult
  | ok : Nat → List String → FetchResult
deriving Repr, DecidableEq

structure Env where
  web : String → FetchResult
  join : String → String → String
  setList : List String → List String

/-- What CPython guarantees about `list(set(l))`: a duplicate-free
list with exactly the members of `l`, in an unspecified order. -/
def Env.WF (env : Env) : Prop :=
  ∀ l : List String, (env.setList l).Nodup ∧ ∀ x, x ∈ env.setList l ↔ x ∈ l

/-- The body of `for a in soup.find_all("a", href=True)`: normalize the
href (Python's `or ""` plus `if not nu: continue` skips a `None`/empty
result), then append any novel same-origin URL under the cap to both
the result list (`st.1`, `new_urls`) and the in-call frontier
additions (`st.2`, appended to `to_visit`). -/
def addLink (env : Env) (seed current : String)
    (st : List String × List String) (href : String) :
    List String × List String :=
  let nu := (normalize_url env.join current href).getD ""
  if nu = "" then st
  else if same_origin seed nu && !st.1.contains nu && st.1.length < 100 then
    (st.1 ++ [nu], st.2 ++ [nu])
  else st

/-- The `while to_visit and steps < 2 and len(new_urls) < 100` loop:
`fuel` is the remaining step budget (`2 - steps`; every processed
frontier entry counts one step, whether it fails, returns a non-200
status or succeeds).  On success the page's links are folded through
`addLink` and the newly found URLs are appended to the frontier. -/
def crawlLoop (env : Env) (seed : String) :
    Nat → List String → List String → List String
  | 0, _, acc => acc
  | _ + 1, [], acc => acc
  | fuel + 1, current :: rest, acc =>
    if acc.length < 100 then
      match env.web current with
      | .fail => crawlLoop env seed fuel rest acc
      | .ok status links =>
        if status = 200 then
          let st := links.foldl (addLink env seed current) (acc, [])
          crawlLoop env seed fuel (rest ++ st.2) st.1
        else crawlLoop env seed fuel rest acc
    else acc

/-- The CrawlTask document fields the stepper reads and writes
(schemas.py `CrawlTask`; timestamps and the store id are omitted —
nothing in the core logic touches them). -/
structure CrawlTask where
  seed_url : String
  status : String
  total_found : Nat
  progress : Nat
  urls : List String
  error : Option String
deriving Repr, DecidableEq

/-- `CrawlTask(seed_url=...)` with the schema defaults. -/
def freshCrawl (seed : String) : CrawlTask :=
  { seed_url := seed, status := "pending", total_found := 0, progress := 0,
    urls := [], error := none }

/-- One `crawl_status` stepper increment (lines 83-116):
`visited = set(doc.urls[:100])`; the frontier is `[seed]` exactly when
no URLs were discovered yet; run the bounded loop; then
`progress = min(100, len(new_urls) // 1)` and the `$set` update, whose
status is `"complete"` iff `progress >= 100`.  The `$set` does not
touch `error` or `seed_url`. -/
def crawlStep (env : Env) (t : CrawlTask) : CrawlTask :=
  let visited := env.setList (t.urls.take 100)
  let toVisit := if visited.isEmpty then [t.seed_url] else []
  let newUrls := crawlLoop env t.seed_url 2 toVisit visited
  let progress := min 100 newUrls.length
  { t with
    urls := newUrls,
    total_found := newUrls.length,
    progress := progress,
    status := if progress ≥ 100 then "complete" else "in-progress" }

/-- Crawl-task states reachable from a freshly created task by
repeated polling; each poll may see a different network (`env.web`)
but every poll's `list(set(...))` obeys the set semantics. -/
inductive ReachableCrawl (seed : String) : CrawlTask → Prop
  | fresh : ReachableCrawl seed (freshCrawl seed)
  | step (env : Env) (t : CrawlTask) : env.WF → ReachableCrawl seed t →
      ReachableCrawl seed (crawlStep env t)

/-! ## The SEO auditor (`run_basic_seo_checks`, lines 191-237)

Fetching and HTML parsing are a single oracle
`fetch : String → Except String PageFacts`: an `Except.error e`
models `requests.get` raising with message `str(e)`; on success the
page facts are what the BeautifulSoup queries of lines 195-206
extract.  `title`/`metaDesc` keep Python truthiness: `None` and `""`
both count as missing. -/

structure PageFacts where
  title : Option String
  metaDesc : Option String
  hasH1 : Bool
  imageCount : Nat
  imgsWithoutAlt : Nat
  wordCount : Nat
deriving Repr, DecidableEq

structure Report where
  title : Option String
  meta_description : Option String
  has_h1 : Bool
  image_count : Nat
  images_missing_alt : Nat
  word_count : Nat
  recommendations : List String
deriving Repr, DecidableEq

/-- Python `not x` on an optional string: `None` and `""` are falsy. -/
def pyFalsy : Option String → Bool
  | none => true
  | some s => s.isEmpty

/-- The deduction sum of lines 209-219. -/
def deductions (p : PageFacts) : Int :=
  (if pyFalsy p.title then 20 else 0)
    + (if pyFalsy p.metaDesc then 15 else 0)
    + (if !p.hasH1 then 10 else 0)
    + (if p.imgsWithoutAlt > 0 then min 15 (p.imgsWithoutAlt : Int) else 0)
    + (if p.wordCount < 200 then 10 else 0)

/-- `score = max(0, score - deductions)` (line 220). -/
def seoScore (p : PageFacts) : Int :=
  max 0 (100 - deductions p)

/-- The report dict of lines 222-236, with its recommendation list
built by the fixed-order conditional splices. -/
def seoReport (p : PageFacts) : Report :=
  { title := p.title, meta_description := p.metaDesc, has_h1 := p.hasH1,
    image_count := p.imageCount, images_missing_alt := p.imgsWithoutAlt,
    word_count := p.wordCount,
    recommendations :=
      (if pyFalsy p.title then
        ["Add a descriptive, keyword-rich <title> tag (50-60 chars)"] else [])
      ++ (if pyFalsy p.metaDesc then
        ["Provide a compelling meta description (~155 chars)"] else [])
      ++ (if !p.hasH1 then
        ["Include a single clear H1 headline on the page"] else [])
      ++ (if p.imgsWithoutAlt > 0 then
        ["Add alt text to images for accessibility and SEO"] else [])
      ++ (if p.wordCount < 200 then
        ["Increase on-page copy to at least 200-500 words"] else []) }

/-- `run_basic_seo_checks(url)`: the only fallible line is the fetch
(line 192); everything after it is total computation on the parsed
page. -/
def run_basic_seo_checks (fetch : String → Except String PageFacts)
    (url : String) : Except String (Int × Report) :=
  match fetch url with
  | .error e => .error e
  | .ok page => .ok (seoScore page, seoReport page)

/-! ## The audit stepper (`audit_list`, lines 147-173) -/

/-- The AuditTask document fields the stepper reads and writes
(schemas.py `AuditTask`; timestamps and the store id omitted). -/
structure AuditTask where
  crawl_id : String
  url : String
  status : String
  score : Option Int
  report : Option Report
  error : Option String
deriving Repr, DecidableEq

/-- `AuditTask(crawl_id=..., url=...)` with the schema defaults. -/
def freshAudit (cid url : String) : AuditTask :=
  { crawl_id := cid, url := url, status := "pending", score := none,
    report := none, error := none }

/-- Membership in `{"complete", "error"}` (line 153). -/
def terminalStatus (s : String) : Bool :=
  s == "complete" || s == "error"

/-- Python's `str(e)[:120]`: the first `n` characters. -/
def pyTruncate (s : String) (n : Nat) : String :=
  String.mk (s.data.take n)

/-- The per-task body of the `for t in tasks[:5]` loop, after the
terminal-status guard: on success `$set` status/score/report, on
failure `$set` status/error with the message truncated to 120
characters. -/
def applyAudit (fetch : String → Except String PageFacts)
    (t : AuditTask) : AuditTask :=
  match run_basic_seo_checks fetch t.url with
  | .ok (s, r) => { t with status := "complete", score := some s, report := some r }
  | .error e => { t with status := "error", error := some (pyTruncate e 120) }

/-- The loop of lines 152-168 over the stored list, carrying the
position `i` in the list: only the tasks at positions 0-4
(`tasks[:5]`) are examined, and among those only the non-terminal
ones are advanced. -/
def stepTasks (fetch : String → Except String PageFacts) :
    Nat → List AuditTask → List AuditTask
  | _, [] => []
  | i, t :: ts =>
    (if i < 5 && !terminalStatus t.status then applyAudit fetch t else t)
      :: stepTasks fetch (i + 1) ts

/-- One `audit_list` batch: apply the loop to the stored task list
(the store returns the updated documents in the same stable order). -/
def audit_list (fetch : String → Except String PageFacts)
    (tasks : List AuditTask) : List AuditTask :=
  stepTasks fetch 0 tasks

/-- Audit-task states reachable from a freshly created task: the
stepper only ever applies `applyAudit` to a non-terminal task. -/
inductive ReachableAudit : AuditTask → Prop
  | fresh (cid url : String) : ReachableAudit (freshAudit cid url)
  | step (fetch : String → Except String PageFacts) (t : AuditTask) :
      ReachableAudit t → terminalStatus t.status = false →
      ReachableAudit (applyAudit fetch t)

/-! ## Derived notions, invariant definitions and concrete fixtures -/

/-- A fragment-free URL: no `#` occurs in it, so `urlparse` would give
it an empty fragment. -/
def hashFree (s : String) : Bool :=
  s.data.all (fun c => c != '#')

/-- The properties `same_origin` with the seed plus fragment-freeness
that every recorded URL enjoys. -/
def GoodUrl (seed u : String) : Prop :=
  same_origin seed u = true ∧ hashFree u = true


/-- The invariant the crawl loop maintains on its accumulated URL
list: duplicate-free, capped at 100, and every entry same-origin with
the seed and fragment-free. -/
def StOk (seed : String) (l : List String) : Prop :=
  l.Nodup ∧ l.length ≤ 100 ∧ ∀ u ∈ l, GoodUrl seed u


structure CrawlInv (seed : String) (t : CrawlTask) : Prop where
  seedEq : t.seed_url = seed
  nodup : t.urls.Nodup
  lenLe : t.urls.length ≤ 100
  good : ∀ u ∈ t.urls, GoodUrl seed u
  totalEq : t.total_found = t.urls.length
  progressEq : t.progress = min 100 t.urls.length
  errNone : t.error = none
  statusOfUrls : t.urls ≠ [] →
    t.status = if 100 ≤ t.progress then "complete" else "in-progress"
  statusNotErr : t.status ≠ "error"
  completeImp : t.status = "complete" → t.progress = 100


/-! ## Concrete fixtures for witnesses and counterexamples -/

/-- A two-page same-origin site: the seed links to exactly one
distinct internal page (`N = 1 < 100` distinct internal links). -/
def siteWeb : String → FetchResult := fun u =>
  if u = "https://a.com" then .ok 200 ["https://a.com/p1"]
  else if u = "https://a.com/p1" then .ok 200 []
  else .fail

/-- An environment with a given network, absolute-link `urljoin` and
CPython-faithful first-occurrence `list(set(...))` order. -/
def envOf (web : String → FetchResult) : Env :=
  { web := web, join := fun _ l => l, setList := List.dedup }

def env1 : Env := envOf siteWeb

/-- The task state after the first poll of the two-page site. -/
def crawlT1 : CrawlTask := crawlStep env1 (freshCrawl "https://a.com")

/-- The 100 distinct internal links of the big fixture. -/
def bigUrls : List String :=
  (List.range 100).map (fun i => "http://s.io/" ++ toString i)

/-- A seed page with 100 distinct internal links: a single poll
discovers all of them and the task completes. -/
def bigWeb : String → FetchResult := fun u =>
  if u = "http://s.io" then .ok 200 bigUrls else .ok 200 []

def envBig : Env := envOf bigWeb

/-- A reachable crawl task in the `complete` state. -/
def crawlComplete : CrawlTask := crawlStep envBig (freshCrawl "http://s.io")

/-- `crawlComplete` written out: the first poll records all 100 links
and completes. -/
def crawlCompleteLit : CrawlTask :=
  { seed_url := "http://s.io", status := "complete", total_found := 100,
    progress := 100, urls := bigUrls, error := none }

/-- An environment whose `list(set(...))` hands the distinct elements
back in reversed order — a legitimate behaviour of an unordered
Python set. -/
def revEnv : Env :=
  { web := fun _ => .ok 200 [], join := fun _ l => l,
    setList := fun l => l.dedup.reverse }


/-- `env` with the page `p` replaced by a page that fetches cleanly
but contains no links: the claim that failing pages contribute zero
links says stepping under `env` equals stepping under this. -/
def Env.silence (env : Env) (p : String) : Env :=
  { env with web := fun q => if q = p then .ok 200 [] else env.web q }

/-! ## Specification-side definitions (for refinement comparisons)

These re-state what the design document says in its own terms; the
theorems compare them with the functions translated from the code. -/

/-- Spec wording of the score: start at 100; deduct 20 / 15 / 10 /
`min(15, imgs_without_alt)` / 10 for the five checks; clamp to
[0, 100]. -/
def scoreSpec (p : PageFacts) : Int :=
  max 0 (min 100 (100
    - (if pyFalsy p.title then 20 else 0)
    - (if pyFalsy p.metaDesc then 15 else 0)
    - (if !p.hasH1 then 10 else 0)
    - min 15 (p.imgsWithoutAlt : Int)
    - (if p.wordCount < 200 then 10 else 0)))

/-- The five recommendation messages in the spec's fixed order:
title → meta description → h1 → alt text → word count. -/
def checkMsgs : List String :=
  ["Add a descriptive, keyword-rich <title> tag (50-60 chars)",
   "Provide a compelling meta description (~155 chars)",
   "Include a single clear H1 headline on the page",
   "Add alt text to images for accessibility and SEO",
   "Increase on-page copy to at least 200-500 words"]

/-- Which of the five checks fail, in the same fixed order. -/
def failFlags (p : PageFacts) : List Bool :=
  [pyFalsy p.title, pyFalsy p.metaDesc, !p.hasH1,
   decide (0 < p.imgsWithoutAlt), decide (p.wordCount < 200)]

/-- Spec wording of the recommendation list: exactly one entry per
failed check, selected from the fixed-order message list. -/
def recsSpec (p : PageFacts) : List String :=
  ((checkMsgs.zip (failFlags p)).filter (fun x => x.2)).map (fun x => x.1)

/-! ## Audit fixtures -/

/-- A page that passes every check. -/
def okPage : PageFacts :=
  { title := some "Welcome", metaDesc := some "A demo page", hasH1 := true,
    imageCount := 0, imgsWithoutAlt := 0, wordCount := 300 }

/-- A fetch oracle for which every page audits successfully. -/
def okFetch : String → Except String PageFacts := fun _ => .ok okPage

/-- A fresh pending audit task for page `i` of the demo crawl. -/
def auditPending (i : Nat) : AuditTask :=
  freshAudit "crawl1" ("https://a.com/p" ++ toString i)

/-- An already-completed audit task for page `i`. -/
def auditDone (i : Nat) : AuditTask :=
  { auditPending i with
    status := "complete",
    score := some 100,
    report := some (seoReport okPage) }

/-- Six stored audit tasks whose first five are already terminal and
whose sixth is still pending. -/
def tasksSlice : List AuditTask :=
  [auditDone 0, auditDone 1, auditDone 2, auditDone 3, auditDone 4,
   auditPending 5]

/-- A fetch oracle that times out on page 0 only. -/
def failFetch0 : String → Except String PageFacts := fun u =>
  if u = "https://a.com/p0" then .error "connection timed out" else .ok okPage

/-- Three stored audit tasks: two pending, one already complete. -/
def tasksIso : List AuditTask :=
  [auditPending 0, auditPending 1, auditDone 2]


/-! ## Helper lemmas -/

theorem envOf_wf (web : String → FetchResult) : (envOf web).WF :=
  fun l => ⟨l.nodup_dedup, fun _ => List.mem_dedup⟩

theorem revEnv_wf : revEnv.WF := fun l =>
  ⟨List.nodup_reverse.mpr l.nodup_dedup,
   fun x => by
    show x ∈ l.dedup.reverse ↔ x ∈ l
    rw [List.mem_reverse, List.mem_dedup]⟩


theorem hashFree_append (s t : String) :
    hashFree (s ++ t) = (hashFree s && hashFree t) := by
  simp [hashFree, String.data_append]

theorem splitAtFirst_eq_some {c : Char} {l a b : List Char}
    (h : splitAtFirst c l = some (a, b)) : l = a ++ c :: b ∧ c ∉ a := by
  induction l generalizing a b with
  | nil => simp [splitAtFirst] at h
  | cons x xs ih =>
    by_cases hx : x = c
    · subst hx
      simp only [splitAtFirst, if_pos rfl, Option.some.injEq, Prod.mk.injEq] at h
      obtain ⟨rfl, rfl⟩ := h
      simp
    · simp only [splitAtFirst, if_neg hx, Option.map_eq_some'] at h
      obtain ⟨⟨a', b'⟩, hsplit, hab⟩ := h
      simp only [Prod.mk.injEq] at hab
      obtain ⟨rfl, rfl⟩ := hab
      obtain ⟨hl, hc⟩ := ih hsplit
      refine ⟨by simp [hl], ?_⟩
      simp only [List.mem_cons, not_or]
      exact ⟨fun hcx => hx hcx.symm, hc⟩

theorem splitAtFirst_eq_none {c : Char} {l : List Char}
    (h : splitAtFirst c l = none) : c ∉ l := by
  induction l with
  | nil => simp
  | cons x xs ih =>
    by_cases hx : x = c
    · subst hx; simp [splitAtFirst] at h
    · simp [splitAtFirst, hx] at h
      simp [ih h]
      exact fun hcx => hx hcx.symm

theorem splitAtFirst_append_not_mem {c : Char} {a : List Char} (b : List Char)
    (h : c ∉ a) : splitAtFirst c (a ++ c :: b) = some (a, b) := by
  induction a with
  | nil => simp [splitAtFirst]
  | cons x xs ih =>
    have hx : ¬x = c := fun hxc => h (by simp [hxc])
    have hxs : c ∉ xs := fun hm => h (by simp [hm])
    simp [splitAtFirst, hx, ih hxs]

theorem splitNetloc_fst_all (l : List Char) :
    (splitNetloc l).1.all (fun c => !isNetlocEnd c) = true := by
  unfold splitNetloc
  split
  · dsimp only
    rw [List.all_eq_true]
    exact fun x hx => List.mem_takeWhile_imp (p := fun c => !isNetlocEnd c) hx
  · dsimp only
    rfl

/-- The netloc, path and query components produced by `urlparse` never
contain a `#`: the fragment split removes everything from the first
`#` on, and the netloc stops at any of `/?#`. -/
theorem urlparse_hashFree (s : String) :
    hashFree (urlparse s).netloc = true ∧ hashFree (urlparse s).path = true
      ∧ hashFree (urlparse s).query = true := by
  unfold urlparse
  rcases hs : splitScheme s.data with ⟨scheme, rest1⟩
  rcases hn : splitNetloc rest1 with ⟨netloc, rest2⟩
  have hnet : hashFree (String.mk netloc) = true := by
    have hall := splitNetloc_fst_all rest1
    rw [hn] at hall
    dsimp only at hall
    rw [List.all_eq_true] at hall
    rw [hashFree, List.all_eq_true]
    intro c hc
    have hcn := hall c hc
    simp [isNetlocEnd] at hcn
    simp [hcn.2]
  have main : ∀ rest3 : List Char, '#' ∉ rest3 →
      ∀ path query : List Char,
      (match splitAtFirst '?' rest3 with
        | some (a, b) => (a, b)
        | none => (rest3, ([] : List Char))) = (path, query) →
      hashFree (String.mk path) = true ∧ hashFree (String.mk query) = true := by
    intro rest3 h3 path query hpq
    have hsub : path ++ query ⊆ rest3 := by
      rcases hq : splitAtFirst '?' rest3 with _ | ⟨a, b⟩
      · rw [hq] at hpq
        simp at hpq
        obtain ⟨hp, hqq⟩ := hpq
        subst hp; subst hqq
        simp
      · rw [hq] at hpq
        simp at hpq
        obtain ⟨hp, hqq⟩ := hpq
        subst hp; subst hqq
        obtain ⟨hl, _⟩ := splitAtFirst_eq_some hq
        rw [hl]
        intro x hx
        simp at hx ⊢
        rcases hx with hx | hx
        · exact Or.inl hx
        · exact Or.inr (Or.inr hx)
    constructor
    · rw [hashFree, List.all_eq_true]
      intro c hc
      have : (c : Char) ∈ rest3 := hsub (by simp [hc])
      simp
      exact fun hcc => h3 (hcc ▸ this)
    · rw [hashFree, List.all_eq_true]
      intro c hc
      have : (c : Char) ∈ rest3 := hsub (by simp [hc])
      simp
      exact fun hcc => h3 (hcc ▸ this)
  rcases hf : splitAtFirst '#' rest2 with _ | ⟨a, b⟩
  · have h3 : '#' ∉ rest2 := splitAtFirst_eq_none hf
    rcases hpq : (match splitAtFirst '?' rest2 with
      | some (a, b) => (a, b)
      | none => (rest2, ([] : List Char))) with ⟨path, query⟩
    have := main rest2 h3 path query hpq
    simp only [hs, hn, hf, hpq]
    exact ⟨hnet, this⟩
  · have h3 : '#' ∉ a := (splitAtFirst_eq_some hf).2
    rcases hpq : (match splitAtFirst '?' a with
      | some (a, b) => (a, b)
      | none => (a, ([] : List Char))) with ⟨path, query⟩
    have := main a h3 path query hpq
    simp only [hs, hn, hf, hpq]
    exact ⟨hnet, this⟩

theorem geturl_hashFree (p : UrlParts)
    (hs : hashFree p.scheme = true) (hn : hashFree p.netloc = true)
    (hp : hashFree p.path = true) (hq : hashFree p.query = true)
    (hf : p.fragment = "") :
    hashFree (geturl p) = true := by
  have hlit1 : hashFree "//" = true := by decide
  have hlit2 : hashFree "/" = true := by decide
  have hlit3 : hashFree ":" = true := by decide
  have hlit4 : hashFree "?" = true := by decide
  have hlit0 : hashFree "" = true := by decide
  unfold geturl
  rw [hf]
  dsimp only
  split_ifs <;>
    simp_all [hashFree_append, hs, hn, hp, hq, hlit0, hlit1, hlit2, hlit3, hlit4]

/-- Whatever `urljoin` returns, a successful `normalize_url` yields a
fragment-free URL. -/
theorem normalize_url_hashFree (join : String → String → String)
    (base link u : String) (h : normalize_url join base link = some u) :
    hashFree u = true := by
  simp only [normalize_url] at h
  split at h
  · rename_i hsch
    simp at h
    subst h
    obtain ⟨hn, hp, hq⟩ := urlparse_hashFree (join base link)
    apply geturl_hashFree
    · rcases hsch with hs | hs <;> rw [hs] <;> decide
    · exact hn
    · exact hp
    · exact hq
    · rfl
  · simp at h

set_option maxHeartbeats 4000000 in
theorem crawlComplete_eq : crawlComplete = crawlCompleteLit := by
  decide

/-! ## Crawl-loop invariants -/

theorem addLink_ok (env : Env) (seed current href : String)
    (st : List String × List String) (h : StOk seed st.1) :
    StOk seed (addLink env seed current st href).1
      ∧ ∃ ext, (addLink env seed current st href).1 = st.1 ++ ext := by
  obtain ⟨hnd, hlen, hgood⟩ := h
  unfold addLink
  dsimp only
  split
  · exact ⟨⟨hnd, hlen, hgood⟩, [], by simp⟩
  · rename_i hne
    split
    · rename_i hguard
      simp only [Bool.and_eq_true, Bool.not_eq_true', decide_eq_true_eq] at hguard
      obtain ⟨⟨hso, hcon⟩, hlt⟩ := hguard
      obtain ⟨v, hv⟩ : ∃ v, normalize_url env.join current href = some v := by
        rcases hopt : normalize_url env.join current href with _ | v
        · rw [hopt] at hne; exact absurd rfl hne
        · exact ⟨v, rfl⟩
      rw [hv] at hso hcon ⊢
      simp only [Option.getD_some] at hso hcon ⊢
      have hmem : v ∉ st.1 := by
        intro hm
        have hct : st.1.contains v = true := by simpa using hm
        rw [hct] at hcon
        cases hcon
      refine ⟨⟨?_, ?_, ?_⟩, [v], rfl⟩
      · rw [List.nodup_append]
        exact ⟨hnd, List.nodup_singleton _, by simpa using hmem⟩
      · rw [List.length_append, List.length_singleton]
        omega
      · intro u hu
        rw [List.mem_append, List.mem_singleton] at hu
        rcases hu with hu | hu
        · exact hgood u hu
        · subst hu
          exact ⟨hso, normalize_url_hashFree env.join current href _ hv⟩
    · exact ⟨⟨hnd, hlen, hgood⟩, [], by simp⟩

theorem foldl_addLink_ok (env : Env) (seed current : String)
    (links : List String) (st : List String × List String)
    (h : StOk seed st.1) :
    StOk seed (links.foldl (addLink env seed current) st).1
      ∧ ∃ ext, (links.foldl (addLink env seed current) st).1 = st.1 ++ ext := by
  induction links generalizing st with
  | nil => exact ⟨h, [], by simp⟩
  | cons a as ih =>
    rw [List.foldl_cons]
    obtain ⟨h1, ext1, hext1⟩ := addLink_ok env seed current a st h
    obtain ⟨h2, ext2, hext2⟩ := ih _ h1
    exact ⟨h2, ext1 ++ ext2, by rw [hext2, hext1, List.append_assoc]⟩

theorem crawlLoop_ok (env : Env) (seed : String) (fuel : Nat)
    (q acc : List String) (h : StOk seed acc) :
    StOk seed (crawlLoop env seed fuel q acc)
      ∧ ∃ ext, crawlLoop env seed fuel q acc = acc ++ ext := by
  induction fuel generalizing q acc with
  | zero => exact ⟨h, [], by simp [crawlLoop]⟩
  | succ fuel ih =>
    match q with
    | [] => exact ⟨h, [], by simp [crawlLoop]⟩
    | current :: rest =>
      rw [crawlLoop]
      split
      · split
        · exact ih rest acc h
        · rename_i status links _
          split
          · dsimp only
            obtain ⟨h1, ext1, hext1⟩ :=
              foldl_addLink_ok env seed current links (acc, []) h
            obtain ⟨h2, ext2, hext2⟩ := ih _ _ h1
            exact ⟨h2, ext1 ++ ext2, by rw [hext2, hext1, List.append_assoc]⟩
          · exact ih rest acc h
      · exact ⟨h, [], by simp⟩

theorem crawlLoop_nil (env : Env) (seed : String) (fuel : Nat)
    (acc : List String) : crawlLoop env seed fuel [] acc = acc := by
  cases fuel <;> rfl

/-! ## Projection lemmas for one crawl step -/

theorem crawlStep_urls (env : Env) (t : CrawlTask) :
    (crawlStep env t).urls
      = crawlLoop env t.seed_url 2
          (if (env.setList (t.urls.take 100)).isEmpty then [t.seed_url] else [])
          (env.setList (t.urls.take 100)) := rfl

theorem crawlStep_total (env : Env) (t : CrawlTask) :
    (crawlStep env t).total_found = (crawlStep env t).urls.length := rfl

theorem crawlStep_progress (env : Env) (t : CrawlTask) :
    (crawlStep env t).progress = min 100 (crawlStep env t).urls.length := rfl

theorem crawlStep_status (env : Env) (t : CrawlTask) :
    (crawlStep env t).status
      = if 100 ≤ (crawlStep env t).progress then "complete" else "in-progress" := rfl

theorem crawlStep_error (env : Env) (t : CrawlTask) :
    (crawlStep env t).error = t.error := rfl

theorem crawlStep_seed (env : Env) (t : CrawlTask) :
    (crawlStep env t).seed_url = t.seed_url := rfl

/-! ## The master invariant of reachable crawl states -/

theorem freshCrawl_inv (seed : String) : CrawlInv seed (freshCrawl seed) where
  seedEq := rfl
  nodup := List.nodup_nil
  lenLe := by simp [freshCrawl]
  good := by simp [freshCrawl]
  totalEq := rfl
  progressEq := rfl
  errNone := rfl
  statusOfUrls := fun h => absurd rfl h
  statusNotErr := by simp [freshCrawl]
  completeImp := by simp [freshCrawl]

/-- `set(l)` of a short duplicate-free list is a permutation of it. -/
theorem setList_perm (env : Env) (hwf : env.WF) (l : List String)
    (hnd : l.Nodup) : (env.setList l).Perm l :=
  (List.perm_ext_iff_of_nodup (hwf l).1 hnd).2 fun a => (hwf l).2 a

/-- One stepper increment preserves the master invariant. -/
theorem crawlStep_inv (env : Env) (seed : String) (t : CrawlTask)
    (hwf : env.WF) (h : CrawlInv seed t) : CrawlInv seed (crawlStep env t) := by
  have htake : t.urls.take 100 = t.urls := List.take_of_length_le h.lenLe
  have hperm : (env.setList (t.urls.take 100)).Perm t.urls := by
    rw [htake]; exact setList_perm env hwf t.urls h.nodup
  have hvisited : StOk seed (env.setList (t.urls.take 100)) := by
    refine ⟨(hwf _).1, ?_, ?_⟩
    · rw [hperm.length_eq]; exact h.lenLe
    · intro u hu
      exact h.good u (hperm.mem_iff.mp hu)
  obtain ⟨hok, ext, hext⟩ := crawlLoop_ok env t.seed_url 2
    (if (env.setList (t.urls.take 100)).isEmpty then [t.seed_url] else [])
    (env.setList (t.urls.take 100)) (h.seedEq ▸ hvisited)
  have hurls : StOk seed (crawlStep env t).urls := by
    rw [crawlStep_urls]; exact h.seedEq ▸ hok
  refine ⟨?_, hurls.1, hurls.2.1, hurls.2.2, crawlStep_total env t,
    crawlStep_progress env t, ?_, ?_, ?_, ?_⟩
  · rw [crawlStep_seed]; exact h.seedEq
  · rw [crawlStep_error]; exact h.errNone
  · intro _; exact crawlStep_status env t
  · rw [crawlStep_status]
    split <;> simp
  · intro hc
    rw [crawlStep_status] at hc
    rw [crawlStep_progress] at hc ⊢
    split at hc
    · omega
    · exact absurd hc (by simp)

/-- Every reachable crawl state satisfies the master invariant. -/
theorem reachable_inv {seed : String} {t : CrawlTask}
    (h : ReachableCrawl seed t) : CrawlInv seed t := by
  induction h with
  | fresh => exact freshCrawl_inv seed
  | step env t hwf _ ih => exact crawlStep_inv env seed t hwf ih

/-- The new URL list of a step extends the de-duplicated stored list. -/
theorem crawlStep_urls_append (env : Env) (seed : String) (t : CrawlTask)
    (hwf : env.WF) (h : CrawlInv seed t) :
    ∃ ext, (crawlStep env t).urls = env.setList (t.urls.take 100) ++ ext := by
  have htake : t.urls.take 100 = t.urls := List.take_of_length_le h.lenLe
  have hperm : (env.setList (t.urls.take 100)).Perm t.urls := by
    rw [htake]; exact setList_perm env hwf t.urls h.nodup
  have hvisited : StOk seed (env.setList (t.urls.take 100)) := by
    refine ⟨(hwf _).1, ?_, ?_⟩
    · rw [hperm.length_eq]; exact h.lenLe
    · intro u hu
      exact h.good u (hperm.mem_iff.mp hu)
  obtain ⟨_, ext, hext⟩ := crawlLoop_ok env t.seed_url 2
    (if (env.setList (t.urls.take 100)).isEmpty then [t.seed_url] else [])
    (env.setList (t.urls.take 100)) (h.seedEq ▸ hvisited)
  exact ⟨ext, by rw [crawlStep_urls]; exact hext⟩

/-- Once URLs have been discovered, a further poll leaves everything
but the order of `urls` unchanged: the frontier is empty, so the
step's result is just `list(set(urls))`. -/
theorem crawlStep_stable (env : Env) (seed : String) (t : CrawlTask)
    (hwf : env.WF) (h : CrawlInv seed t) (hne : t.urls ≠ []) :
    (crawlStep env t).urls.Perm t.urls
    ∧ (crawlStep env t).status = t.status
    ∧ (crawlStep env t).progress = t.progress
    ∧ (crawlStep env t).total_found = t.total_found := by
  have htake : t.urls.take 100 = t.urls := List.take_of_length_le h.lenLe
  have hperm : (env.setList (t.urls.take 100)).Perm t.urls := by
    rw [htake]; exact setList_perm env hwf t.urls h.nodup
  have hempty : (env.setList (t.urls.take 100)).isEmpty = false := by
    by_contra hE
    rw [Bool.not_eq_false, List.isEmpty_iff] at hE
    rw [hE] at hperm
    exact hne hperm.symm.eq_nil
  have hurls : (crawlStep env t).urls = env.setList (t.urls.take 100) := by
    rw [crawlStep_urls, hempty]
    simp only [Bool.false_eq_true, if_false]
    exact crawlLoop_nil env t.seed_url 2 _
  have hlen : (crawlStep env t).urls.length = t.urls.length := by
    rw [hurls]; exact hperm.length_eq
  have hprog : (crawlStep env t).progress = t.progress := by
    rw [crawlStep_progress, hlen, h.progressEq]
  refine ⟨by rw [hurls]; exact hperm, ?_, hprog, ?_⟩
  · rw [crawlStep_status, hprog, h.statusOfUrls hne]
  · rw [crawlStep_total, hlen, h.totalEq]


/-! ## Failing pages are silent and linkless -/

theorem crawlLoop_silence (env : Env) (p seed : String)
    (hp : env.web p = .fail ∨ ∃ s ls, env.web p = .ok s ls ∧ s ≠ 200) :
    ∀ fuel q acc,
      crawlLoop (env.silence p) seed fuel q acc = crawlLoop env seed fuel q acc := by
  intro fuel
  induction fuel with
  | zero => intro q acc; rfl
  | succ fuel ih =>
    intro q acc
    match q with
    | [] => rfl
    | current :: rest =>
      rw [crawlLoop, crawlLoop]
      by_cases hcl : acc.length < 100
      · rw [if_pos hcl, if_pos hcl]
        by_cases hcp : current = p
        · subst hcp
          have hsil : (env.silence current).web current = .ok 200 [] := by
            simp [Env.silence]
          rw [hsil]
          rcases hp with hf | ⟨s, ls, hok, hs⟩
          · rw [hf]
            dsimp only
            rw [if_pos rfl]
            dsimp only [List.foldl_nil]
            rw [List.append_nil]
            exact ih rest acc
          · rw [hok]
            dsimp only
            rw [if_pos rfl, if_neg hs]
            dsimp only [List.foldl_nil]
            rw [List.append_nil]
            exact ih rest acc
        · have hw : (env.silence p).web current = env.web current := by
            simp [Env.silence, hcp]
          rw [hw]
          rcases henv : env.web current with _ | ⟨s, ls⟩
          · exact ih rest acc
          · dsimp only
            by_cases hs : s = 200
            · rw [if_pos hs, if_pos hs]
              have haddeq : addLink (env.silence p) seed current
                  = addLink env seed current := rfl
              rw [haddeq]
              exact ih _ _
            · rw [if_neg hs, if_neg hs]
              exact ih rest acc
      · rw [if_neg hcl, if_neg hcl]

theorem crawlStep_silence (env : Env) (p : String) (t : CrawlTask)
    (hp : env.web p = .fail ∨ ∃ s ls, env.web p = .ok s ls ∧ s ≠ 200) :
    crawlStep (env.silence p) t = crawlStep env t := by
  have hloop := crawlLoop_silence env p t.seed_url hp
  unfold crawlStep
  simp only [show (env.silence p).setList = env.setList from rfl, hloop]

/-! ## Claim theorems: the crawl stepper -/

/-- **C1** (corrected).  The original claim — that repeated polling
eventually reaches `total_found == N` and `status == complete` for a
fixture with `N < 100` distinct internal links — fails: completion
requires 100 recorded URLs, and polling stalls after the first poll
because the frontier is only seeded while `urls` is empty.  What does
hold: the length of `urls` is monotonically non-decreasing across
polls; once any URL has been discovered, a further poll preserves the
membership of `urls` and leaves `status`, `progress` and
`total_found` unchanged; and a step ends `complete` exactly when it
records 100 URLs. -/
theorem crawl_progress_stalls (seed : String) (env : Env) (t : CrawlTask)
    (hwf : env.WF) (hr : ReachableCrawl seed t) :
    t.urls.length ≤ (crawlStep env t).urls.length
    ∧ (t.urls ≠ [] →
        ((crawlStep env t).urls.Perm t.urls
         ∧ (crawlStep env t).status = t.status
         ∧ (crawlStep env t).progress = t.progress
         ∧ (crawlStep env t).total_found = t.total_found))
    ∧ ((crawlStep env t).status = "complete"
        ↔ (crawlStep env t).urls.length = 100) := by
  have h := reachable_inv hr
  have htake : t.urls.take 100 = t.urls := List.take_of_length_le h.lenLe
  have hperm : (env.setList (t.urls.take 100)).Perm t.urls := by
    rw [htake]; exact setList_perm env hwf t.urls h.nodup
  obtain ⟨ext, hext⟩ := crawlStep_urls_append env seed t hwf h
  have hinv2 := crawlStep_inv env seed t hwf h
  refine ⟨?_, fun hne => crawlStep_stable env seed t hwf h hne, ?_⟩
  · rw [hext, List.length_append, hperm.length_eq]
    omega
  · have hle := hinv2.lenLe
    rw [crawlStep_status, crawlStep_progress]
    constructor
    · intro hc
      split at hc
      · rename_i hcond
        omega
      · exact absurd hc (by simp)
    · intro hlen
      rw [if_pos (by omega)]

/-- **C1 counterexample.**  A same-origin fixture with `N = 1 < 100`
distinct internal links: after the first poll `total_found = 1`, but
the state is a fixed point of the stepper with status
`"in-progress"`, so no number of further polls ever yields
`status == complete`. -/
theorem crawl_eventual_completion_cex :
    crawlT1.total_found = 1 ∧ crawlT1.status = "in-progress"
      ∧ crawlStep env1 crawlT1 = crawlT1 := by
  decide

theorem crawl_progress_stalls_witness :
    crawlT1.urls.length ≤ (crawlStep env1 crawlT1).urls.length
    ∧ (crawlT1.urls ≠ [] →
        ((crawlStep env1 crawlT1).urls.Perm crawlT1.urls
         ∧ (crawlStep env1 crawlT1).status = crawlT1.status
         ∧ (crawlStep env1 crawlT1).progress = crawlT1.progress
         ∧ (crawlStep env1 crawlT1).total_found = crawlT1.total_found))
    ∧ ((crawlStep env1 crawlT1).status = "complete"
        ↔ (crawlStep env1 crawlT1).urls.length = 100) :=
  crawl_progress_stalls "https://a.com" env1 crawlT1 (envOf_wf siteWeb)
    (ReachableCrawl.step env1 _ (envOf_wf siteWeb) ReachableCrawl.fresh)

/-- **C3** (confirmed).  Every crawl state reachable from a fresh task
by repeated stepping has duplicate-free `urls`, every recorded URL is
same-origin with the seed and fragment-free, the list never exceeds
the cap of 100, and `progress = 100` implies status `complete`. -/
theorem crawl_state_invariants (seed : String) (t : CrawlTask)
    (h : ReachableCrawl seed t) :
    t.urls.Nodup
    ∧ (∀ u ∈ t.urls, same_origin seed u = true ∧ hashFree u = true)
    ∧ t.urls.length ≤ 100
    ∧ (t.progress = 100 → t.status = "complete") := by
  have hi := reachable_inv h
  refine ⟨hi.nodup, hi.good, hi.lenLe, ?_⟩
  intro hp
  have hne : t.urls ≠ [] := by
    intro hnil
    rw [hi.progressEq, hnil] at hp
    simp at hp
  rw [hi.statusOfUrls hne, if_pos (by omega)]

theorem crawl_state_invariants_witness :
    crawlT1.urls.Nodup
    ∧ (∀ u ∈ crawlT1.urls,
        same_origin "https://a.com" u = true ∧ hashFree u = true)
    ∧ crawlT1.urls.length ≤ 100
    ∧ (crawlT1.progress = 100 → crawlT1.status = "complete") :=
  crawl_state_invariants "https://a.com" crawlT1
    (ReachableCrawl.step env1 _ (envOf_wf siteWeb) ReachableCrawl.fresh)

/-- **C4** (confirmed).  After every stepper invocation the task's
progress equals `min(100, count(urls))` and its status is `complete`
when progress reaches 100 and `in-progress` otherwise. -/
theorem crawl_progress_status_formula (env : Env) (t : CrawlTask) :
    (crawlStep env t).progress = min 100 (crawlStep env t).urls.length
    ∧ (crawlStep env t).status
        = (if (crawlStep env t).progress = 100 then "complete"
           else "in-progress") := by
  refine ⟨crawlStep_progress env t, ?_⟩
  rw [crawlStep_status, crawlStep_progress]
  by_cases hc : 100 ≤ min 100 (crawlStep env t).urls.length
  · rw [if_pos hc, if_pos (by omega)]
  · rw [if_neg hc, if_neg (by omega)]

/-- **C5** (confirmed).  Whatever the per-page outcomes, a crawl step
never produces the `error` status and never touches the stored error
message (which is `none` in every reachable state); and a page whose
fetch fails or returns a non-200 status contributes exactly as much
as a page with zero links: stepping with it silenced is literally the
same function of the task. -/
theorem crawl_errors_silent (env : Env) (t : CrawlTask) (p : String)
    (hp : env.web p = .fail ∨ ∃ s ls, env.web p = .ok s ls ∧ s ≠ 200) :
    (crawlStep env t).status ≠ "error"
    ∧ (crawlStep env t).error = t.error
    ∧ (∀ seed t', ReachableCrawl seed t' → t'.error = none)
    ∧ crawlStep (env.silence p) t = crawlStep env t := by
  refine ⟨?_, crawlStep_error env t, ?_, crawlStep_silence env p t hp⟩
  · rw [crawlStep_status]
    split <;> simp
  · intro seed t' hr
    exact (reachable_inv hr).errNone

theorem crawl_errors_silent_witness :
    (siteWeb "https://a.com/dead" = .fail
      ∨ ∃ s ls, siteWeb "https://a.com/dead" = .ok s ls ∧ s ≠ 200)
    ∧ (crawlStep env1 crawlT1).status ≠ "error"
    ∧ crawlStep (env1.silence "https://a.com/dead") crawlT1
        = crawlStep env1 crawlT1 :=
  ⟨Or.inl (by decide),
   (crawl_errors_silent env1 crawlT1 "https://a.com/dead"
      (Or.inl (by decide))).1,
   (crawl_errors_silent env1 crawlT1 "https://a.com/dead"
      (Or.inl (by decide))).2.2.2⟩


/-! ## Claim theorems: `same_origin` -/

theorem takeWhile_append_all {α : Type} {p : α → Bool} {a : List α} {y : α}
    (b : List α) (ha : a.all p = true) (hy : p y = false) :
    (a ++ y :: b).takeWhile p = a := by
  induction a with
  | nil => simp [List.takeWhile_cons, hy]
  | cons x xs ih =>
    rw [List.all_cons, Bool.and_eq_true] at ha
    simp [List.takeWhile_cons, ha.1, ih ha.2]

theorem dropWhile_append_all {α : Type} {p : α → Bool} {a : List α} {y : α}
    (b : List α) (ha : a.all p = true) (hy : p y = false) :
    (a ++ y :: b).dropWhile p = y :: b := by
  induction a with
  | nil => simp [List.dropWhile_cons, hy]
  | cons x xs ih =>
    rw [List.all_cons, Bool.and_eq_true] at ha
    simp [List.dropWhile_cons, ha.1, ih ha.2]

/-- For an https URL whose authority part contains none of `/?#`, the
parsed netloc is exactly that authority part, whatever the path. -/
theorem urlparse_https_netloc (n p1 : String)
    (hn : n.data.all (fun c => !isNetlocEnd c) = true) :
    (urlparse ("https://" ++ n ++ "/" ++ p1)).netloc = n := by
  have hdata : ("https://" ++ n ++ "/" ++ p1).data
      = ['h','t','t','p','s'] ++ ':' :: ('/' :: '/' :: (n.data ++ '/' :: p1.data)) := by
    rw [String.data_append ("https://" ++ n ++ "/") p1,
        String.data_append ("https://" ++ n) "/",
        String.data_append "https://" n]
    have h1 : "https://".data = ['h','t','t','p','s',':','/','/'] := rfl
    have h2 : "/".data = ['/'] := rfl
    rw [h1, h2]
    simp
  have hscheme : splitScheme
      (['h','t','t','p','s'] ++ ':' :: ('/' :: '/' :: (n.data ++ '/' :: p1.data)))
      = ("https", '/' :: '/' :: (n.data ++ '/' :: p1.data)) := by
    unfold splitScheme
    rw [splitAtFirst_append_not_mem _ (by decide)]
    rfl
  have hnet : splitNetloc ('/' :: '/' :: (n.data ++ '/' :: p1.data))
      = (n.data, '/' :: p1.data) := by
    show (List.takeWhile (fun c => !isNetlocEnd c) (n.data ++ '/' :: p1.data),
          List.dropWhile (fun c => !isNetlocEnd c) (n.data ++ '/' :: p1.data))
        = (n.data, '/' :: p1.data)
    rw [takeWhile_append_all _ hn (by decide),
        dropWhile_append_all _ hn (by decide)]
  unfold urlparse
  rw [hdata, hscheme]
  dsimp only
  rw [hnet]

/-- **C2** (corrected).  `same_origin` compares only the network
location (the `netloc`: host, port and any userinfo, byte-equal);
the scheme is ignored, as are path and query.  The two concrete
examples of the claim do hold, but two URLs that differ in scheme
alone are treated as same-origin, so the "agree on scheme" half of
the claim is false. -/
theorem same_origin_netloc_only :
    (∀ a b, same_origin a b = true ↔ (urlparse a).netloc = (urlparse b).netloc)
    ∧ (∀ n p1 p2 : String, n.data.all (fun c => !isNetlocEnd c) = true →
        same_origin ("https://" ++ n ++ "/" ++ p1)
          ("https://" ++ n ++ "/" ++ p2) = true)
    ∧ same_origin "https://a.com/x" "https://a.com/y" = true
    ∧ same_origin "https://a.com" "https://b.com" = false := by
  refine ⟨fun a b => ?_, fun n p1 p2 hn => ?_, by decide, by decide⟩
  · unfold same_origin
    exact beq_iff_eq ..
  · unfold same_origin
    rw [urlparse_https_netloc n p1 hn, urlparse_https_netloc n p2 hn]
    exact beq_self_eq_true n

/-- **C2 counterexample.**  The claim's "if and only if a and b agree
on scheme, host, and port" fails in the only-if direction:
`http://a.com/x` and `https://a.com/y` disagree on scheme, yet
`same_origin` returns true because their netlocs are byte-equal. -/
theorem same_origin_scheme_ignored_cex :
    same_origin "http://a.com/x" "https://a.com/y" = true
    ∧ (urlparse "http://a.com/x").scheme ≠ (urlparse "https://a.com/y").scheme := by
  decide

theorem same_origin_netloc_only_witness :
    ("a.com:8080".data.all (fun c => !isNetlocEnd c) = true)
    ∧ same_origin ("https://" ++ "a.com:8080" ++ "/" ++ "x")
        ("https://" ++ "a.com:8080" ++ "/" ++ "y") = true :=
  ⟨by decide,
   same_origin_netloc_only.2.1 "a.com:8080" "x" "y" (by decide)⟩


/-! ## Claim theorems: the SEO auditor -/

theorem deductions_nonneg (p : PageFacts) : 0 ≤ deductions p := by
  unfold deductions
  split_ifs <;> omega

/-- **C6** (confirmed).  The audit score equals 100 minus 20 without a
title, 15 without a meta description, 10 without an h1,
`min(15, images without alt)`, and 10 when the word count is below
200, clamped to [0, 100]; the recommendation list is exactly the
fixed-order messages of the failed checks (one per failed check); and
the concrete page of the claim scores 42 with 5 recommendations. -/
theorem seo_scoring_spec (p : PageFacts) :
    seoScore p = scoreSpec p
    ∧ (seoReport p).recommendations = recsSpec p
    ∧ (seoReport p).recommendations.length = (failFlags p).count true
    ∧ seoScore ⟨none, none, false, 3, 3, 50⟩ = 42
    ∧ (seoReport ⟨none, none, false, 3, 3, 50⟩).recommendations.length = 5 := by
  have hminA : (if 0 < p.imgsWithoutAlt then min 15 (p.imgsWithoutAlt : Int) else 0)
      = min 15 (p.imgsWithoutAlt : Int) := by
    by_cases hA : 0 < p.imgsWithoutAlt
    · rw [if_pos hA]
    · rw [if_neg hA]
      have hz : p.imgsWithoutAlt = 0 := by omega
      rw [hz]
      simp
  refine ⟨?_, ?_, ?_, by decide, by decide⟩
  · unfold seoScore scoreSpec deductions
    rw [hminA]
    by_cases hT : pyFalsy p.title <;> by_cases hM : pyFalsy p.metaDesc <;>
      by_cases hH : (!p.hasH1) = true <;> by_cases hW : p.wordCount < 200 <;>
      simp only [hT, hM, hH, hW, if_true, if_false, if_pos, if_neg,
        not_false_eq_true, not_true_eq_false] <;>
      omega
  · unfold seoReport recsSpec checkMsgs failFlags
    by_cases hT : pyFalsy p.title <;> by_cases hM : pyFalsy p.metaDesc <;>
      by_cases hH : (!p.hasH1) = true <;> by_cases hA : 0 < p.imgsWithoutAlt <;>
      by_cases hW : p.wordCount < 200 <;>
      simp [hT, hM, hH, hA, hW]
  · unfold seoReport failFlags
    by_cases hT : pyFalsy p.title <;> by_cases hM : pyFalsy p.metaDesc <;>
      by_cases hH : (!p.hasH1) = true <;> by_cases hA : 0 < p.imgsWithoutAlt <;>
      by_cases hW : p.wordCount < 200 <;>
      simp [hT, hM, hH, hA, hW]

/-- **C7** (confirmed).  `run_basic_seo_checks` propagates a failure
exactly when the fetch of the target URL fails; on success the score
lies in [0, 100]; and the caller (`audit_list`'s body) maps a
propagated failure to the task's error state. -/
theorem seo_audit_failure_propagation
    (fetch : String → Except String PageFacts) (url : String) :
    ((∃ e, run_basic_seo_checks fetch url = Except.error e)
        ↔ (∃ e, fetch url = Except.error e))
    ∧ (∀ s r, run_basic_seo_checks fetch url = Except.ok (s, r) →
        0 ≤ s ∧ s ≤ 100)
    ∧ (∀ (t : AuditTask) (e : String), fetch t.url = Except.error e →
        (applyAudit fetch t).status = "error"
        ∧ (applyAudit fetch t).error = some (pyTruncate e 120)) := by
  refine ⟨?_, ?_, ?_⟩
  · unfold run_basic_seo_checks
    rcases hf : fetch url with e | page <;> simp
  · intro s r h
    unfold run_basic_seo_checks at h
    rcases hf : fetch url with e | page <;> rw [hf] at h
    · cases h
    · simp only [Except.ok.injEq, Prod.mk.injEq] at h
      obtain ⟨hs, _⟩ := h
      rw [← hs]
      have hd := deductions_nonneg page
      unfold seoScore
      constructor
      · exact le_max_left 0 _
      · omega
  · intro t e hf
    unfold applyAudit run_basic_seo_checks
    rw [hf]
    exact ⟨rfl, rfl⟩

theorem seo_audit_failure_propagation_witness :
    (∃ e, run_basic_seo_checks (fun _ => Except.error "boom") "https://x.com"
        = Except.error e)
    ∧ (0 ≤ seoScore okPage ∧ seoScore okPage ≤ 100)
    ∧ ((applyAudit failFetch0 (auditPending 0)).status = "error"
        ∧ (applyAudit failFetch0 (auditPending 0)).error
            = some (pyTruncate "connection timed out" 120)) :=
  ⟨(seo_audit_failure_propagation (fun _ => Except.error "boom") "https://x.com").1.mpr
      ⟨"boom", rfl⟩,
   (seo_audit_failure_propagation (fun _ => Except.ok okPage) "https://x.com").2.1
      (seoScore okPage) (seoReport okPage) rfl,
   (seo_audit_failure_propagation failFetch0 "https://x.com").2.2
      (auditPending 0) "connection timed out" rfl⟩


/-! ## The audit stepper: position-based batch behaviour -/

theorem stepTasks_length (fetch : String → Except String PageFacts)
    (i : Nat) (ts : List AuditTask) :
    (stepTasks fetch i ts).length = ts.length := by
  induction ts generalizing i with
  | nil => rfl
  | cons t ts ih => simp [stepTasks, ih]

/-- The audit batch is pointwise and position-based: the task at
position `j` of the result is the stored task, advanced exactly when
`i + j < 5` (positions are counted from `i`) and it is not already
terminal. -/
theorem stepTasks_get (fetch : String → Except String PageFacts)
    (i : Nat) (ts : List AuditTask) (j : Nat) :
    (stepTasks fetch i ts)[j]? = (ts[j]?).map
      (fun t => if i + j < 5 && !terminalStatus t.status
                then applyAudit fetch t else t) := by
  induction ts generalizing i j with
  | nil => simp [stepTasks]
  | cons t ts ih =>
    match j with
    | 0 => simp [stepTasks]
    | j + 1 =>
      rw [stepTasks]
      rw [List.getElem?_cons_succ, List.getElem?_cons_succ, ih (i + 1) j]
      have harith : i + 1 + j = i + (j + 1) := by omega
      rw [harith]

/-- **C8** (corrected).  The batch is cut positionally before the
terminal check: each invocation examines only the first 5 stored
tasks, in list order, and advances those of them that are not yet
terminal; a terminal task among the first 5 is skipped but still
occupies its batch slot, and tasks beyond position 5 are never
advanced in that invocation (so at most 5 tasks are advanced). -/
theorem audit_batch_first_five (fetch : String → Except String PageFacts)
    (ts : List AuditTask) (j : Nat) :
    (audit_list fetch ts).length = ts.length
    ∧ (audit_list fetch ts)[j]? = (ts[j]?).map
        (fun t => if j < 5 && !terminalStatus t.status
                  then applyAudit fetch t else t) := by
  refine ⟨stepTasks_length fetch 0 ts, ?_⟩
  have h := stepTasks_get fetch 0 ts j
  simpa using h

/-- **C8 counterexample.**  Six stored tasks: the first five are
already terminal and the sixth is pending.  The claim says terminal
tasks do not count against the batch of 5, so the pending task would
be advanced; in fact the invocation advances nothing — the five
terminal tasks consume the whole `tasks[:5]` slice and the pending
task at position 5 stays pending. -/
theorem audit_batch_terminal_slots_cex :
    terminalStatus (auditPending 5).status = false
    ∧ tasksSlice[5]? = some (auditPending 5)
    ∧ ((audit_list okFetch tasksSlice).map (fun t => t.status))
        = ["complete", "complete", "complete", "complete", "complete",
           "pending"] := by
  decide

/-- `applyAudit` under a fetch oracle that agrees everywhere except a
URL the task does not target is the same transition. -/
theorem applyAudit_congr (fetch fetch' : String → Except String PageFacts)
    (bad : String) (hagree : ∀ u, u ≠ bad → fetch' u = fetch u)
    (t : AuditTask) (hu : t.url ≠ bad) :
    applyAudit fetch' t = applyAudit fetch t := by
  unfold applyAudit run_basic_seo_checks
  rw [hagree t.url hu]

/-- Field analysis of every reachable audit-task state: it is fresh
(pending, nothing recorded), completed (score and report recorded, no
error) or failed (error recorded, no score or report). -/
theorem reachableAudit_cases (t : AuditTask) (h : ReachableAudit t) :
    (terminalStatus t.status = false ∧ t.score = none ∧ t.report = none
      ∧ t.error = none)
    ∨ (t.status = "complete" ∧ (∃ s, t.score = some s)
      ∧ (∃ r, t.report = some r) ∧ t.error = none)
    ∨ (t.status = "error" ∧ t.score = none ∧ t.report = none
      ∧ (∃ e, t.error = some e)) := by
  induction h with
  | fresh cid url => exact Or.inl ⟨rfl, rfl, rfl, rfl⟩
  | step fetch t hr hnt ih =>
    have hfields : t.score = none ∧ t.report = none ∧ t.error = none := by
      rcases ih with ⟨_, h1, h2, h3⟩ | ⟨hc, _⟩ | ⟨he, _⟩
      · exact ⟨h1, h2, h3⟩
      · rw [hc] at hnt; cases hnt
      · rw [he] at hnt; cases hnt
    unfold applyAudit
    rcases hrun : run_basic_seo_checks fetch t.url with e | sr
    · exact Or.inr (Or.inr ⟨rfl, hfields.1, hfields.2.1, _, rfl⟩)
    · rcases sr with ⟨s, r⟩
      exact Or.inr (Or.inl ⟨rfl, ⟨s, rfl⟩, ⟨r, rfl⟩, hfields.2.2⟩)

/-- **C9** (confirmed).  When the batch processes a non-terminal task
whose fetch fails, exactly that task transitions: it becomes `error`
with the message truncated to 120 characters (nonempty whenever the
exception message is), its score and report fields are left alone
(absent on every reachable non-terminal task); every sibling's result
is the same pointwise function of its own stored state, and is
unchanged if the failing URL is replaced by a working page; and on
every reachable audit state score and report are present iff the
status is `complete` while the error is present iff the status is
`error`. -/
theorem audit_failure_isolation
    (fetch : String → Except String PageFacts) (ts : List AuditTask)
    (j : Nat) (t : AuditTask) (e : String)
    (hj : ts[j]? = some t) (hnt : terminalStatus t.status = false)
    (hj5 : j < 5) (hf : fetch t.url = Except.error e) :
    (audit_list fetch ts)[j]?
        = some { t with status := "error", error := some (pyTruncate e 120) }
    ∧ (e ≠ "" → pyTruncate e 120 ≠ "")
    ∧ (pyTruncate e 120).length ≤ 120
    ∧ (∀ k, k ≠ j → (audit_list fetch ts)[k]? = (ts[k]?).map
        (fun t' => if k < 5 && !terminalStatus t'.status
                   then applyAudit fetch t' else t'))
    ∧ (∀ fetch', (∀ u, u ≠ t.url → fetch' u = fetch u) →
        (∀ k t', ts[k]? = some t' → k ≠ j → t'.url ≠ t.url) →
        ∀ k, k ≠ j → (audit_list fetch' ts)[k]? = (audit_list fetch ts)[k]?)
    ∧ (∀ t', ReachableAudit t' →
        ((t'.status = "complete") ↔ (t'.score.isSome ∧ t'.report.isSome))
        ∧ ((t'.status = "error") ↔ t'.error.isSome)) := by
  have happly : applyAudit fetch t
      = { t with status := "error", error := some (pyTruncate e 120) } := by
    unfold applyAudit run_basic_seo_checks
    rw [hf]
  refine ⟨?_, ?_, ?_, ?_, ?_, ?_⟩
  · have h := stepTasks_get fetch 0 ts j
    rw [show (audit_list fetch ts)[j]? = (stepTasks fetch 0 ts)[j]? from rfl, h,
      hj]
    simp [hj5, hnt, happly]
  · intro he hc
    have hdat := congrArg String.data hc
    simp only [pyTruncate] at hdat
    rw [List.take_eq_nil_iff] at hdat
    rcases hdat with h120 | hnil
    · cases h120
    · refine he ?_
      cases e
      cases hnil
      rfl
  · show (e.data.take 120).length ≤ 120
    rw [List.length_take]
    omega
  · intro k _
    have h := stepTasks_get fetch 0 ts k
    rw [show (audit_list fetch ts)[k]? = (stepTasks fetch 0 ts)[k]? from rfl, h]
    simp
  · intro fetch' hagree hurls k hk
    rw [show (audit_list fetch' ts)[k]? = (stepTasks fetch' 0 ts)[k]? from rfl,
        show (audit_list fetch ts)[k]? = (stepTasks fetch 0 ts)[k]? from rfl,
        stepTasks_get, stepTasks_get]
    rcases hts : ts[k]? with _ | t'
    · rfl
    · have hu := hurls k t' hts hk
      by_cases hcond : (0 + k < 5 && !terminalStatus t'.status) = true
      · simp only [Option.map_some', if_pos hcond]
        rw [applyAudit_congr fetch fetch' t.url hagree t' hu]
      · simp only [Option.map_some', if_neg hcond]
  · intro t' hr
    rcases reachableAudit_cases t' hr with
      ⟨hterm, h1, h2, h3⟩ | ⟨hc, ⟨s, hs⟩, ⟨r, hrep⟩, herr⟩ | ⟨he, h1, h2, e', he'⟩
    · have hne : t'.status ≠ "complete" ∧ t'.status ≠ "error" := by
        unfold terminalStatus at hterm
        rw [Bool.or_eq_false_iff] at hterm
        constructor
        · intro hx; rw [hx] at hterm; cases hterm.1
        · intro hx; rw [hx] at hterm; cases hterm.2
      rw [h1, h2, h3]
      constructor
      · constructor
        · intro hx; exact absurd hx hne.1
        · intro hx; cases hx.1
      · constructor
        · intro hx; exact absurd hx hne.2
        · intro hx; cases hx
    · rw [hc, hs, hrep, herr]
      constructor
      · constructor
        · intro _; exact ⟨rfl, rfl⟩
        · intro _; rfl
      · constructor
        · intro hx; exact absurd hx (by decide)
        · intro hx; cases hx
    · rw [he, h1, h2, he']
      constructor
      · constructor
        · intro hx; exact absurd hx (by decide)
        · intro hx; cases hx.1
      · constructor
        · intro _; rfl
        · intro _; rfl


theorem audit_failure_isolation_witness :
    (audit_list failFetch0 tasksIso)[0]?
        = some { auditPending 0 with
                 status := "error",
                 error := some (pyTruncate "connection timed out" 120) }
    ∧ (audit_list failFetch0 tasksIso)[2]? = some (auditDone 2) := by
  have h := audit_failure_isolation failFetch0 tasksIso 0 (auditPending 0)
      "connection timed out" (by decide) (by decide) (by decide) rfl
  refine ⟨h.1, ?_⟩
  have h4 := h.2.2.2.1 2 (by decide)
  rw [h4]
  decide

/-! ## Claim theorems: terminal states are frames -/

/-- **C10** (corrected).  The audit half holds: a terminal AuditTask
is skipped by the batch and returned exactly as stored.  The crawl
half holds only up to the order of `urls`: a poll on a complete
(reachable) CrawlTask preserves its status, progress, total_found,
error, seed and the membership of `urls`, but the list is rebuilt as
`list(set(urls))`, whose order an unordered Python set does not
guarantee — the stored document may therefore change. -/
theorem terminal_tasks_frame
    (fetch : String → Except String PageFacts) (ts : List AuditTask)
    (j : Nat) (t : AuditTask)
    (hj : ts[j]? = some t) (hterm : terminalStatus t.status = true)
    (seed : String) (env : Env) (ct : CrawlTask)
    (hwf : env.WF) (hr : ReachableCrawl seed ct) (hc : ct.status = "complete") :
    (audit_list fetch ts)[j]? = some t
    ∧ (crawlStep env ct).status = ct.status
    ∧ (crawlStep env ct).progress = ct.progress
    ∧ (crawlStep env ct).total_found = ct.total_found
    ∧ (crawlStep env ct).error = ct.error
    ∧ (crawlStep env ct).seed_url = ct.seed_url
    ∧ (crawlStep env ct).urls.Perm ct.urls := by
  have hi := reachable_inv hr
  have hne : ct.urls ≠ [] := by
    have hp := hi.completeImp hc
    intro hnil
    rw [hi.progressEq, hnil] at hp
    simp at hp
  obtain ⟨hperm, hst, hpr, htf⟩ := crawlStep_stable env seed ct hwf hi hne
  refine ⟨?_, hst, hpr, htf, crawlStep_error env ct, crawlStep_seed env ct,
    hperm⟩
  rw [show (audit_list fetch ts)[j]? = (stepTasks fetch 0 ts)[j]? from rfl,
      stepTasks_get, hj]
  simp [hterm]

theorem terminal_tasks_frame_witness :
    (audit_list okFetch tasksSlice)[0]? = some (auditDone 0)
    ∧ (crawlStep envBig crawlComplete).status = crawlComplete.status
    ∧ (crawlStep envBig crawlComplete).urls.Perm crawlComplete.urls := by
  have h := terminal_tasks_frame okFetch tasksSlice 0 (auditDone 0)
      (by decide) (by decide) "http://s.io" envBig crawlComplete
      (envOf_wf bigWeb)
      (ReachableCrawl.step envBig _ (envOf_wf bigWeb) ReachableCrawl.fresh)
      (by rw [crawlComplete_eq]; rfl)
  exact ⟨h.1, h.2.1, h.2.2.2.2.2.2⟩

set_option maxHeartbeats 4000000 in
/-- **C10 counterexample.**  A crawl poll does mutate the stored
document of a complete task: `crawlComplete` is a reachable complete
task with 100 recorded URLs, `revEnv` is an environment whose
`list(set(...))` returns the distinct elements reversed (a legitimate
order for an unordered set), and stepping the complete task under it
changes the `urls` list — contradicting "leaves a complete CrawlTask
unchanged, including the contents and order of its urls list". -/
theorem terminal_crawl_reorder_cex :
    crawlComplete.status = "complete"
    ∧ revEnv.WF
    ∧ (crawlStep revEnv crawlComplete).urls ≠ crawlComplete.urls := by
  rw [crawlComplete_eq]
  refine ⟨rfl, revEnv_wf, ?_⟩
  decide

end SeoAudit
